import Mathlib

/-!
Shallow embedding of the Markdown syntax repair engine in
`src/utils/syntaxFixer.ts` (final revision of the file: the class whose
`fixWithDiff` starts at line 874), together with proofs settling the
frozen claims about it.

Modelling conventions:
* a JavaScript string is a `List Char` (`Str`); JS strings are UTF-16
  code-unit sequences, and every character appearing in this development
  is a single code unit, so the identification is exact here;
* `text.split('\n')` is `splitNL`, `lines.join('\n')` is `joinNL`;
* JS `indexOf` returning `-1` is modelled with `Option Nat`;
* the regexes of the source are embedded as explicit scanners that follow
  the JS backtracking semantics of those concrete patterns (documented at
  each definition);
* index loops that splice into the array they iterate over are rephrased
  as structural recursion over the not-yet-visited suffix of lines,
  following the index arithmetic of the source (`i + lineOffset`).
-/

set_option maxRecDepth 20000

namespace SyntaxFixer

/-- A JS string, as a list of characters. -/
abbrev Str := List Char

/-- Shorthand for writing `Str` literals. -/
def strL (s : String) : Str := s.data

/-- The backtick character (code point 96). -/
def btChar : Char := Char.ofNat 96

/-- One entry of `addedChars`: `{char: string; position: number}`.
In the source the `char` field is a JS string (the block-math stage pushes
the two-character token `'$$'` as a single entry), hence `Str`. -/
structure Ins where
  char : Str
  position : Nat
deriving DecidableEq, Repr

/-- The `FixDiff` interface of the source. -/
structure FixDiff where
  original : Str
  fixed : Str
  addedChars : List Ins
deriving DecidableEq, Repr

/-- `codeBlocks` options. -/
structure CodeBlocksOpts where
  enabled : Bool
  preserveLanguage : Bool
deriving DecidableEq, Repr

/-- `inlineCode` options. -/
structure InlineCodeOpts where
  enabled : Bool
  ignoreInlineMultiLine : Bool
deriving DecidableEq, Repr

/-- `mathFormulas` options. -/
structure MathFormulasOpts where
  enabled : Bool
  distinguishBlockInline : Bool
deriving DecidableEq, Repr

/-- `tables` options. -/
structure TablesOpts where
  enabled : Bool
  autoAddSeparator : Bool
deriving DecidableEq, Repr

/-- `links` options. -/
structure LinksOpts where
  enabled : Bool
  autoFillEmptyUrl : Bool
deriving DecidableEq, Repr

/-- `images` options. -/
structure ImagesOpts where
  enabled : Bool
  inheritLinkRules : Bool
deriving DecidableEq, Repr

/-- The `strategy` union type. -/
inductive Strategy where
  | autoFix
  | markError
  | warnOnly
deriving DecidableEq, Repr

/-- The `MarkdownSyntaxFixOptions` configuration record. -/
structure MarkdownSyntaxFixOptions where
  enabled : Bool
  strategy : Strategy
  codeBlocks : CodeBlocksOpts
  inlineCode : InlineCodeOpts
  mathFormulas : MathFormulasOpts
  tables : TablesOpts
  links : LinksOpts
  images : ImagesOpts
deriving DecidableEq, Repr

/-- `DEFAULT_SYNTAX_FIX_OPTIONS` of the source. -/
def DEFAULT_SYNTAX_FIX_OPTIONS : MarkdownSyntaxFixOptions where
  enabled := true
  strategy := Strategy.autoFix
  codeBlocks := { enabled := true, preserveLanguage := true }
  inlineCode := { enabled := true, ignoreInlineMultiLine := true }
  mathFormulas := { enabled := true, distinguishBlockInline := true }
  tables := { enabled := true, autoAddSeparator := true }
  links := { enabled := true, autoFillEmptyUrl := false }
  images := { enabled := true, inheritLinkRules := true }

/-- JS whitespace (`\s`, and the set trimmed by `String.prototype.trim`). -/
def isJsWs (c : Char) : Bool :=
  c = ' ' || c = '\t' || c = '\n' || c = '\r' ||
  c = Char.ofNat 0x0b || c = Char.ofNat 0x0c ||
  c = Char.ofNat 0xa0 || c = Char.ofNat 0x1680 ||
  (0x2000 ≤ c.toNat && c.toNat ≤ 0x200a) ||
  c = Char.ofNat 0x2028 || c = Char.ofNat 0x2029 ||
  c = Char.ofNat 0x202f || c = Char.ofNat 0x205f ||
  c = Char.ofNat 0x3000 || c = Char.ofNat 0xfeff

/-- `line.trim()`. -/
def jsTrim (l : Str) : Str :=
  ((l.dropWhile isJsWs).reverse.dropWhile isJsWs).reverse

/-- `text.split('\n')`: always a non-empty list of `'\n'`-free pieces. -/
def splitNL : Str → List Str
  | [] => [[]]
  | c :: rest =>
    if c = '\n' then [] :: splitNL rest
    else
      match splitNL rest with
      | [] => [[c]]
      | h :: t => (c :: h) :: t

/-- `lines.join('\n')`. -/
def joinNL : List Str → Str
  | [] => []
  | [x] => x
  | x :: xs => x ++ '\n' :: joinNL xs

/-- Insert the string `s` into `l` at offset `n`
(JS `l.slice(0, n) + s + l.slice(n)`). -/
def insAt (l : Str) (n : Nat) (s : Str) : Str :=
  l.take n ++ s ++ l.drop n

/-- Insert a line into a line array at index `n` (JS `splice(n, 0, x)`). -/
def insLineAt (ls : List Str) (n : Nat) (x : Str) : List Str :=
  ls.take n ++ x :: ls.drop n

/-- `sub` searched in `l` from index `i` over the suffix `sfx = l.drop i`;
returns the first index at which `sub` is a prefix (JS `indexOf`). -/
def idxOfSubAux (sub : Str) : Str → Nat → Option Nat
  | [], i => if sub.isEmpty then some i else none
  | c :: cs, i =>
    if sub.isPrefixOf (c :: cs) then some i else idxOfSubAux sub cs (i + 1)

/-- JS `l.indexOf(sub)` (with `none` for `-1`). -/
def idxOfSub (sub l : Str) : Option Nat := idxOfSubAux sub l 0

/-- The characters whose escaping the engine tracks:
the regex class `` [`$[\]()!|] ``. -/
def escCharOk (c : Char) : Bool :=
  c = btChar || c = '$' || c = '[' || c = ']' || c = '(' || c = ')' ||
  c = '!' || c = '|'

/-- Number of consecutive backslashes immediately before index `i` of `t`
(the backward walk of `findEscapePositions`). -/
def backslashRunBefore (t : Str) (i : Nat) : Nat :=
  ((t.take i).reverse.takeWhile (fun c => c = '\\')).length

/-- Scanner for `findEscapePositions`: `sfx` is `t.drop i`. -/
def findEscapePositionsAux (t : Str) : Str → Nat → List Nat
  | [], _ => []
  | c :: cs, i =>
    let headOk : Bool :=
      match cs with
      | [] => false
      | d :: _ => escCharOk d
    if c = '\\' && headOk && (backslashRunBefore t i) % 2 = 0 then
      i :: findEscapePositionsAux t cs (i + 1)
    else
      findEscapePositionsAux t cs (i + 1)

/-- `findEscapePositions`: positions of backslashes followed by a
syntactically significant character, excluding backslashes that are
themselves escaped (odd run of preceding backslashes). -/
def findEscapePositions (t : Str) : List Nat := findEscapePositionsAux t t 0

/-- `isEscaped(position, escapePositions)`: plain membership test. -/
def isEscaped (position : Nat) (escapePositions : List Nat) : Bool :=
  escapePositions.contains position

/-! ## Code-block stage (`fixCodeBlocksWithDiff`, final revision) -/

/-- `isEmptyLine`: blank line (only whitespace). -/
def isEmptyLine (l : Str) : Bool := jsTrim l = []

/-- The test `/^```\s*$/.test(trimmed)`: three backticks then only
whitespace. -/
def tripleThenWs (l : Str) : Bool :=
  (strL "```").isPrefixOf l && (l.drop 3).all isJsWs

/-- `isCodeBlockWithLang`: a ```` ``` ````-plus-language line. -/
def isCodeBlockWithLang (l : Str) : Bool :=
  let tr := jsTrim l
  (strL "```").isPrefixOf tr && decide (tr.length > 3) && !(tripleThenWs tr)

/-- `isStartWithChinese`: trimmed line starts with a CJK character
(`[一-龥]`) or full-width punctuation (`[＀-￯]`). -/
def isStartWithChinese (l : Str) : Bool :=
  match jsTrim l with
  | [] => false
  | c :: _ =>
    (0x4e00 ≤ c.toNat && c.toNat ≤ 0x9fa5) ||
    (0xff00 ≤ c.toNat && c.toNat ≤ 0xffef)

/-- The three recorded backticks of one inserted ```` ``` ```` line,
starting at text offset `pos` (`addedChars.push` of the fence stage). -/
def fenceTicks (pos : Nat) : List Ins :=
  [⟨[btChar], pos⟩, ⟨[btChar], pos + 1⟩, ⟨[btChar], pos + 2⟩]

/-- The line scan of `fixCodeBlocksWithDiff`.

The JS loop walks `i` with `currentLineIdx = i + lineOffset` over an array
into which it splices closing-fence lines at `currentLineIdx`; after a
splice the scan resumes two indices further, i.e. the current line is
consumed.  That is exactly a structural walk over the unvisited suffix
`todo`, emitting lines into `outRev` (reversed).  `pos` is
`calculateCharOffset(currentLineIdx)`: the sum of `length + 1` over all
already-emitted lines, which is where an inserted line starts.  Returns
(final lines, final `inCodeBlock`, recorded `addedChars`). -/
def fenceLoop (E : List Nat) :
    List Str → Bool → Nat → List Str → Nat → List Ins →
    List Str × Bool × List Ins
  | [], inCB, _, outRev, _, acc => (outRev.reverse, inCB, acc)
  | line :: rest, inCB, emptyCnt, outRev, pos, acc =>
    let trimmed := jsTrim line
    let backtickPos := idxOfSub (strL "```") line
    let charPos := pos + backtickPos.getD 0
    let isEscapedBacktick := backtickPos.isSome && isEscaped charPos E
    if !inCB && (strL "```").isPrefixOf trimmed && !isEscapedBacktick then
      -- start of a code block
      fenceLoop E rest true 0 (line :: outRev) (pos + line.length + 1) acc
    else if inCB then
      if isStartWithChinese line then
        -- close the block by inserting ``` before this line
        fenceLoop E rest false 0 (line :: strL "```" :: outRev)
          (pos + 4 + line.length + 1) (acc ++ fenceTicks pos)
      else if isCodeBlockWithLang line && !isEscapedBacktick then
        -- close the block; this line starts a new one
        fenceLoop E rest true 0 (line :: strL "```" :: outRev)
          (pos + 4 + line.length + 1) (acc ++ fenceTicks pos)
      else if isEmptyLine line && emptyCnt + 1 = 2 then
        -- two consecutive blank lines: insert ``` before the second
        fenceLoop E rest false 0 (line :: strL "```" :: outRev)
          (pos + 4 + line.length + 1) (acc ++ fenceTicks pos)
      else
        -- ordinary in-block line; update the blank counter, then the
        -- plain ``` close check
        let cnt1 := if isEmptyLine line then emptyCnt + 1 else 0
        if trimmed = strL "```" && !isEscapedBacktick then
          fenceLoop E rest false 0 (line :: outRev) (pos + line.length + 1) acc
        else
          fenceLoop E rest true cnt1 (line :: outRev) (pos + line.length + 1) acc
    else
      fenceLoop E rest false emptyCnt (line :: outRev) (pos + line.length + 1) acc

/-- `fixCodeBlocksWithDiff(markdown, escapePositions)` (final revision):
line-by-line fence tracking, with a trailing ``` appended when the
document ends inside a block.  The `!markdown` guard returns empty input
unchanged. -/
def fixCodeBlocksWithDiff (o : MarkdownSyntaxFixOptions) (markdown : Str)
    (E : List Nat) : Str × List Ins :=
  if !o.codeBlocks.enabled || markdown.isEmpty then (markdown, [])
  else
    match fenceLoop E (splitNL markdown) false 0 [] 0 [] with
    | (ls, inCB, acc) =>
      if inCB then
        let charOffset := (ls.map (fun l => l.length + 1)).sum
        (joinNL (ls ++ [strL "```"]), acc ++ fenceTicks charOffset)
      else (joinNL ls, acc)

/-! ## Inline-code stage (`fixInlineCodeWithDiff`, final revision) -/

/-- The fence-line test of the inline-code stage:
``trimmed === '```' || trimmed.startsWith('```') && !trimmed.slice(3).includes('`')``. -/
def inlineCodeFenceLine (tr : Str) : Bool :=
  tr = strL "```" ||
  ((strL "```").isPrefixOf tr && !((tr.drop 3).contains btChar))

/-- The per-line backtick toggle: scan the characters, flipping `isInCode`
at every backtick whose global position is not in the escape set. -/
def tickToggle (E : List Nat) (lineStart : Nat) : Str → Nat → Bool → Bool
  | [], _, isInCode => isInCode
  | c :: cs, i, isInCode =>
    if c = btChar && !(isEscaped (lineStart + i) E) then
      tickToggle E lineStart cs (i + 1) (!isInCode)
    else
      tickToggle E lineStart cs (i + 1) isInCode

/-- The unescaped-backtick count of a line
(`[...line.matchAll(/`/g)].filter(...).length`). -/
def unescapedTickCount (E : List Nat) (lineStart : Nat) : Str → Nat → Nat
  | [], _ => 0
  | c :: cs, i =>
    if c = btChar && !(isEscaped (lineStart + i) E) then
      1 + unescapedTickCount E lineStart cs (i + 1)
    else
      unescapedTickCount E lineStart cs (i + 1)

/-- The `forEach` of `fixInlineCodeWithDiff`: per line, skip fence lines
(toggling `isInCodeBlock`), otherwise append one backtick at line end when
the line ends with an open span and has exactly one unescaped backtick. -/
def inlineCodeFold (E : List Nat) :
    List Str → Nat → Bool → List Str × List Ins
  | [], _, _ => ([], [])
  | line :: rest, offset, isInCodeBlock =>
    let tr := jsTrim line
    if inlineCodeFenceLine tr then
      let r := inlineCodeFold E rest (offset + line.length + 1) (!isInCodeBlock)
      (line :: r.1, r.2)
    else if isInCodeBlock then
      let r := inlineCodeFold E rest (offset + line.length + 1) isInCodeBlock
      (line :: r.1, r.2)
    else
      let isInCode := tickToggle E offset line 0 false
      if isInCode && unescapedTickCount E offset line 0 = 1 then
        let r := inlineCodeFold E rest (offset + line.length + 2) isInCodeBlock
        ((line ++ [btChar]) :: r.1, ⟨[btChar], offset + line.length⟩ :: r.2)
      else
        let r := inlineCodeFold E rest (offset + line.length + 1) isInCodeBlock
        (line :: r.1, r.2)

/-- `fixInlineCodeWithDiff(markdown, escapePositions)` (final revision). -/
def fixInlineCodeWithDiff (o : MarkdownSyntaxFixOptions) (markdown : Str)
    (E : List Nat) : Str × List Ins :=
  if !o.inlineCode.enabled then (markdown, [])
  else
    let r := inlineCodeFold E (splitNL markdown) 0 false
    (joinNL r.1, r.2)

/-! ## Math stage (`fixMathFormulasWithDiff`, final revision) -/

/-- One recorded unclosed block-math span:
`{startLine, contentStart, contentEnd}`. -/
structure BlockMath where
  startLine : Nat
  contentStart : Nat
  contentEnd : Nat
deriving DecidableEq, Repr

/-- `calculateCharPosition(endLineIdx, linesArr)`: total characters of
lines `0..endLineIdx` inclusive, one `+1` per newline; `-1` gives `0`. -/
def calculateCharPosition (endLineIdx : Int) (linesArr : List Str) : Nat :=
  ((linesArr.take (endLineIdx + 1).toNat).map (fun l => l.length + 1)).sum

/-- `isUnescapedDollarLine`: a line whose trimmed text is exactly `$$`,
whose `$$` occurrence is not at an escape position.  `pos` is the
accumulated `calculateCharPosition(i - 1, lines)`. -/
def isUnescapedDollarLine (E : List Nat) (line : Str) (pos : Nat) : Bool :=
  if jsTrim line = strL "$$" then
    match idxOfSub (strL "$$") line with
    | some dollarPos => !(isEscaped (pos + dollarPos) E)
    | none => false
  else false

/-- The first pass of the block-math repair: walk the lines recording
every unclosed `$$` block.  `isLast` is detected by `todo = [line]`. -/
def blockMathScan (E : List Nat) :
    List Str → Nat → Nat → Bool → Nat → List BlockMath
  | [], _, _, _, _ => []
  | line :: rest, i, pos, inUnclosedBlock, blockStart =>
    if isUnescapedDollarLine E line pos then
      if !inUnclosedBlock then
        blockMathScan E rest (i + 1) (pos + line.length + 1) true i
      else
        blockMathScan E rest (i + 1) (pos + line.length + 1) false blockStart
    else if inUnclosedBlock && rest.isEmpty then
      [⟨blockStart, blockStart + 1, i⟩]
    else if inUnclosedBlock && jsTrim line = [] then
      ⟨blockStart, blockStart + 1, i - 1⟩ ::
        blockMathScan E rest (i + 1) (pos + line.length + 1) false blockStart
    else
      blockMathScan E rest (i + 1) (pos + line.length + 1) inUnclosedBlock blockStart

/-- The `forEach` of the block-math repair: for each unclosed block,
either replace the following blank line by `$$` or insert a new `$$`
line after the content. -/
def blockMathRepair :
    List BlockMath → List Str → Nat → List Ins → List Str × List Ins
  | [], lines, _, acc => (lines, acc)
  | b :: bs, lines, lineOffset, acc =>
    let actualContentEnd := b.contentEnd + lineOffset
    let targetLine := actualContentEnd + 1
    if decide (targetLine < lines.length) && (jsTrim (lines.getD targetLine []) = []) then
      let insertCharPos := calculateCharPosition ((targetLine : Int) - 1) lines
      blockMathRepair bs (lines.set targetLine (strL "$$")) lineOffset
        (acc ++ [⟨strL "$$", insertCharPos⟩])
    else
      let insertCharPos := calculateCharPosition (actualContentEnd : Int) lines
      blockMathRepair bs (insLineAt lines targetLine (strL "$$")) (lineOffset + 1)
        (acc ++ [⟨strL "\n", insertCharPos - 1⟩, ⟨strL "$$", insertCharPos⟩])

/-- The skip test of the inline-math pass:
`line.trim().startsWith('$$') || line.trim().endsWith('$$')`. -/
def mathSkipLine (line : Str) : Bool :=
  (strL "$$").isPrefixOf (jsTrim line) || (strL "$$").isSuffixOf (jsTrim line)

/-- Positions of the matches of `/(?<!\\)\$(?!\$)/g` within one line:
a `$` not preceded by a backslash and not followed by `$`.  `prev` is the
character before index `i` (irrelevant at `i = 0`). -/
def inlineDollarIdx : Str → Nat → Char → List Nat
  | [], _, _ => []
  | c :: cs, i, prev =>
    let lookaheadOk : Bool :=
      match cs with
      | [] => true
      | d :: _ => d ≠ '$'
    if c = '$' && (i = 0 || prev ≠ '\\') && lookaheadOk then
      i :: inlineDollarIdx cs (i + 1) c
    else
      inlineDollarIdx cs (i + 1) c

/-- The per-line unescaped inline-`$` positions (full-text offsets),
after the `isEscaped` filter. -/
def inlineDollarMatches (E : List Nat) (line : Str) (lineOffset : Nat) : List Nat :=
  (inlineDollarIdx line 0 ' ').filterMap (fun ix =>
    if isEscaped (lineOffset + ix) E then none else some (lineOffset + ix))

/-- The inline-math loop: skip `$$`-edged lines; append one `$` at the end
of every other line with an odd count of unescaped inline dollars. -/
def inlineMathFold (E : List Nat) : List Str → Nat → List Str × List Ins
  | [], _ => ([], [])
  | line :: rest, charOffset =>
    if mathSkipLine line then
      let r := inlineMathFold E rest (charOffset + line.length + 1)
      (line :: r.1, r.2)
    else if (inlineDollarMatches E line charOffset).length % 2 = 1 then
      let r := inlineMathFold E rest (charOffset + line.length + 1 + 1)
      ((line ++ ['$']) :: r.1, ⟨['$'], charOffset + line.length⟩ :: r.2)
    else
      let r := inlineMathFold E rest (charOffset + line.length + 1)
      (line :: r.1, r.2)

/-- `fixMathFormulasWithDiff(markdown, escapePositions)` (final revision):
block pass (scan + repair) first, inline pass second.  The source joins
and re-splits the line array between the passes; since no produced line
contains a newline the arrays coincide, so the repaired line list is
passed on directly. -/
def fixMathFormulasWithDiff (o : MarkdownSyntaxFixOptions) (markdown : Str)
    (E : List Nat) : Str × List Ins :=
  if !o.mathFormulas.enabled then (markdown, [])
  else
    let lines := splitNL markdown
    let blocks := blockMathScan E lines 0 0 false 0
    let afterBlock :=
      if blocks.isEmpty then (lines, ([] : List Ins))
      else blockMathRepair blocks lines 0 []
    let inl := inlineMathFold E afterBlock.1 0
    (joinNL inl.1, afterBlock.2 ++ inl.2)

/-! ## Link/image stages (`findUnclosedBrackets`, `fixLinksWithDiff`,
`fixImagesWithDiff`, final revision)

The two regexes concatenate a caller-supplied string `prefixRegex` in front
of the bracket pattern:

* links pass `'(?<!\\|!)'` — a lookbehind refusing a preceding `\` or `!`
  (a 9-character *source string*, which matters because the stages use
  `match.index + prefixRegex.length` as the position fed to `isEscaped`);
* images pass `'!'` — a literal (1 character).

The embedded scanners follow the backtracking of the concrete patterns:
`(.+?)` (lazily grown, `.` excluding line terminators) up to an
unescaped `]`, then for the first regex `\s*\(` followed by the lazy
`([\s\S]*?)(?=\n|$| |\t)(?!\))` — whose lookahead makes it stop at the
first space, tab, newline or end of input — and for the second regex the
negative lookahead `(?!\s*\()`. -/

/-- Which of the two stages is scanning (decides the prefix pattern). -/
inductive PKind where
  | link
  | image
deriving DecidableEq, Repr

/-- `prefixRegex.length` of the JS string passed for the prefix. -/
def pkindLen : PKind → Nat
  | PKind.link => 9
  | PKind.image => 1

/-- What the `.` of `(.+?)` may match: any character except the JS line
terminators. -/
def jsDotOk (c : Char) : Bool :=
  c ≠ '\n' && c ≠ '\r' && c ≠ Char.ofNat 0x2028 && c ≠ Char.ofNat 0x2029

/-- The stop set of the lookahead `(?=\n|$| |\t)`. -/
def urlStop (c : Char) : Bool := c = '\n' || c = ' ' || c = '\t'

/-- Length of the maximal run of characters from the head of a suffix
that are not in the `urlStop` set. -/
def countUntilStop : Str → Nat
  | [] => 0
  | c :: cs => if urlStop c then 0 else 1 + countUntilStop cs

/-- End position of the lazy `([\s\S]*?)(?=\n|$| |\t)`: the first index
`≥ r` at end of input or holding a stop character. -/
def lazyUrlEnd (t : Str) (r : Nat) : Nat := r + countUntilStop (t.drop r)

/-- Position of the `(` reached by greedy `\s*` from index `p`
(`none` when the whitespace run is not followed by `(`). -/
def parenAfterWs (t : Str) (p : Nat) : Option Nat :=
  let q := p + ((t.drop p).takeWhile isJsWs).length
  match t.get? q with
  | some c => if c = '(' then some q else none
  | none => none

/-- Lazy search for the closing `]` of `(.+?)(?<!\\)\]`: starting with a
one-character content, accept the first index `j` holding an unescaped
`]` whose continuation also matches (`wantParen = true` for the
first regex, where `\s*\(` must follow; `false` for the second, where
`(?!\s*\()` must hold), otherwise grow the content through `j` if the
character can be matched by `.`.  `sfx = t.drop j`, `prev = t[j-1]`.
`restCheck` is the continuation test: `\s*\(` must follow for the first
regex, `(?!\s*\()` must hold for the second. -/
def restCheck (t : Str) (wantParen : Bool) (p : Nat) : Bool :=
  if wantParen then (parenAfterWs t p).isSome
  else !(parenAfterWs t p).isSome

/-- See `restCheck` above: the lazy search for the accepted `]`. -/
def findRBAux (t : Str) (wantParen : Bool) : Char → Str → Nat → Option Nat
  | _, [], _ => none
  | prev, c :: cs, j =>
    if c = ']' && prev ≠ '\\' && restCheck t wantParen (j + 1) then
      some j
    else if jsDotOk c then
      findRBAux t wantParen c cs (j + 1)
    else
      none

/-- Try a match of one of the two bracket regexes with the whole match
starting at index `s`; returns the end index (exclusive) on success. -/
def tryMatchAt (t : Str) (pk : PKind) (wantParen : Bool) (s : Nat) : Option Nat :=
  let pfxOk : Bool :=
    match pk with
    | PKind.link =>
      (decide (s = 0) || (t.getD (s - 1) ' ' ≠ '\\' && t.getD (s - 1) ' ' ≠ '!')) &&
      t.get? s = some '['
    | PKind.image => t.get? s = some '!' && t.get? (s + 1) = some '['
  let b := match pk with | PKind.link => s | PKind.image => s + 1
  if pfxOk && (match t.get? (b + 1) with
               | some c => jsDotOk c
               | none => false) then
    match findRBAux t wantParen (t.getD (b + 1) ' ') (t.drop (b + 2)) (b + 2) with
    | none => none
    | some j =>
      if wantParen then
        match parenAfterWs t (j + 1) with
        | some q => some (lazyUrlEnd t (q + 1))
        | none => none
      else some (j + 1)
  else none

/-- First match whose start is `≥ s` (`sfx = t.drop s`): the JS regex
engine's left-to-right search for the next match. -/
def findMatchFrom (t : Str) (pk : PKind) (wantParen : Bool) :
    Str → Nat → Option (Nat × Nat)
  | [], _ => none
  | _ :: cs, s =>
    match tryMatchAt t pk wantParen s with
    | some e => some (s, e)
    | none => findMatchFrom t pk wantParen cs (s + 1)

/-- The `while ((match = regex.exec(markdown)) !== null)` loop: collect
`(start, end)` pairs, resuming each search at the previous match end.
`fuel` bounds the iteration count; every match advances `lastIndex` by at
least 3, so `t.length + 1` iterations can never be exhausted. -/
def scanAllAux (t : Str) (pk : PKind) (wantParen : Bool) :
    Nat → Nat → List (Nat × Nat)
  | 0, _ => []
  | fuel + 1, lastIdx =>
    match findMatchFrom t pk wantParen (t.drop lastIdx) lastIdx with
    | none => []
    | some (s, e) => (s, e) :: scanAllAux t pk wantParen fuel e

/-- All raw matches of one of the two regexes over `t`. -/
def scanAll (t : Str) (pk : PKind) (wantParen : Bool) : List (Nat × Nat) :=
  scanAllAux t pk wantParen (t.length + 1) 0

/-- One recorded bracket match: `{start, end, type}`; `onlyB = false`
is type `'unclosed'`, `onlyB = true` is type `'onlyBracket'`. -/
structure BMatch where
  start : Nat
  stop : Nat
  onlyB : Bool
deriving DecidableEq, Repr

/-- `hasValidClose` of the first regex's validation: a `)` after the match
end occurring before any of `[` `!` `$` `` ` `` (the `search` of
``/\[|!|\$|`|```/``). -/
def hasValidClose (t : Str) (e : Nat) : Bool :=
  let afterMatch := t.drop e
  let nextCloseParen := afterMatch.findIdx? (fun c => c = ')')
  let nextSyntax := afterMatch.findIdx?
    (fun c => c = '[' || c = '!' || c = '$' || c = btChar)
  match nextCloseParen with
  | none => false
  | some n =>
    match nextSyntax with
    | none => true
    | some k => decide (n < k)

/-- The `'unclosed'` matches of `findUnclosedBrackets`: raw regex matches,
minus those whose `bracketStartPos = match.index + prefixRegex.length` is
an escape position, minus those with a valid close. -/
def unclosedMatches (t : Str) (pk : PKind) (E : List Nat) : List BMatch :=
  (scanAll t pk true).filterMap (fun m =>
    if isEscaped (m.1 + pkindLen pk) E then none
    else if hasValidClose t m.2 then none
    else some ⟨m.1, m.2, false⟩)

/-- The `'onlyBracket'` matches: raw matches of the second regex, minus
escape hits, minus those contained in an already-found `'unclosed'`
match (`isDuplicate`).  The source checks `isDuplicate` against its
growing `matches` array, which also holds the `'onlyBracket'` entries
pushed so far; testing against the `'unclosed'` entries alone is
equivalent, because two matches of one global regex never overlap (the
scan resumes at the previous match end), so a later match can never be
contained in an earlier `'onlyBracket'` one. -/
def onlyBracketMatches (t : Str) (pk : PKind) (E : List Nat)
    (uMs : List BMatch) : List BMatch :=
  (scanAll t pk false).filterMap (fun m =>
    if isEscaped (m.1 + pkindLen pk) E then none
    else if uMs.any (fun u => decide (u.start ≤ m.1) && decide (m.2 ≤ u.stop)) then none
    else some ⟨m.1, m.2, true⟩)

/-- `findUnclosedBrackets(markdown, prefixRegex, escapePositions)`:
the `'unclosed'` matches followed by the `'onlyBracket'` matches. -/
def findUnclosedBrackets (t : Str) (pk : PKind) (E : List Nat) : List BMatch :=
  let u := unclosedMatches t pk E
  u ++ onlyBracketMatches t pk E u

/-- Stable insertion of one element into a list already sorted by
descending `stop` (an element moves past every earlier element with a
`≥` key, as JS's stable `sort((a, b) => b.end - a.end)` does). -/
def insDescByStop (x : BMatch) : List BMatch → List BMatch
  | [] => [x]
  | y :: ys => if x.stop ≤ y.stop then y :: insDescByStop x ys else x :: y :: ys

/-- `matches.sort((a, b) => b.end - a.end)`: stable descending sort. -/
def sortDescByStop (l : List BMatch) : List BMatch :=
  l.foldl (fun acc x => insDescByStop x acc) []

/-- The repair loop shared by `fixLinksWithDiff` and `fixImagesWithDiff`:
walk the matches (sorted by descending end), inserting `)` or `()`
(`(#)` under the fill policy) at `match.end + offset`.  The source pushes
the records into `addedChars` and returns `addedChars.reverse()`; `acc`
here is built by prepending, so it already is the reversed push order and
is returned as-is.  The third component counts visits to the
`actualEnd > length` skip branch (the source's early `return` inside the
`forEach`). -/
def applyBrackets (fill : Bool) :
    List BMatch → Str → Nat → List Ins → Nat → Str × List Ins × Nat
  | [], cur, _, acc, skips => (cur, acc, skips)
  | m :: rest, cur, offset, acc, skips =>
    let actualEnd := m.stop + offset
    if decide (actualEnd > cur.length) then
      applyBrackets fill rest cur offset acc (skips + 1)
    else if !m.onlyB then
      applyBrackets fill rest (insAt cur actualEnd (strL ")")) (offset + 1)
        (⟨strL ")", actualEnd⟩ :: acc) skips
    else
      let addStr := strL "(" ++ (if fill then strL "#" else []) ++ strL ")"
      applyBrackets fill rest (insAt cur actualEnd addStr) (offset + 2)
        (⟨strL ")", actualEnd + 1⟩ :: ⟨strL "(", actualEnd⟩ :: acc) skips

/-- `fixLinksWithDiff` (final revision), with the skip-branch counter as
an extra instrumentation component. -/
def fixLinksFull (o : MarkdownSyntaxFixOptions) (markdown : Str)
    (E : List Nat) : Str × List Ins × Nat :=
  if !o.links.enabled then (markdown, [], 0)
  else
    applyBrackets o.links.autoFillEmptyUrl
      (sortDescByStop (findUnclosedBrackets markdown PKind.link E))
      markdown 0 [] 0

/-- `fixLinksWithDiff(markdown, escapePositions)`. -/
def fixLinksWithDiff (o : MarkdownSyntaxFixOptions) (markdown : Str)
    (E : List Nat) : Str × List Ins :=
  ((fixLinksFull o markdown E).1, (fixLinksFull o markdown E).2.1)

/-- `fixImagesWithDiff` (final revision), instrumented like
`fixLinksFull`. -/
def fixImagesFull (o : MarkdownSyntaxFixOptions) (markdown : Str)
    (E : List Nat) : Str × List Ins × Nat :=
  if !o.images.enabled then (markdown, [], 0)
  else
    applyBrackets (o.images.inheritLinkRules && o.links.autoFillEmptyUrl)
      (sortDescByStop (findUnclosedBrackets markdown PKind.image E))
      markdown 0 [] 0

/-- `fixImagesWithDiff(markdown, escapePositions)`. -/
def fixImagesWithDiff (o : MarkdownSyntaxFixOptions) (markdown : Str)
    (E : List Nat) : Str × List Ins :=
  ((fixImagesFull o markdown E).1, (fixImagesFull o markdown E).2.1)

/-! ## Table stage (`fixTablesWithDiff`, final revision) -/

/-- One step of the pattern `(\s*-+\s*\|)+` of the separator-row regex:
whitespace, at least one `-`, whitespace, `|`.  Deterministic because the
three character classes are disjoint.  Returns the rest on success. -/
def sepCell (l : Str) : Option Str :=
  let l1 := l.dropWhile isJsWs
  let dashes := l1.takeWhile (fun c => c = '-')
  let l2 := l1.dropWhile (fun c => c = '-')
  let l3 := l2.dropWhile isJsWs
  if dashes.isEmpty then none
  else
    match l3 with
    | '|' :: rest => some rest
    | _ => none

/-- `(\s*-+\s*\|)+` then `\s*$` with an explicit iteration bound: one or
more cells, then only whitespace. -/
def sepCellsF : Nat → Str → Bool
  | 0, _ => false
  | fuel + 1, l =>
    match sepCell l with
    | none => false
    | some rest => rest.all isJsWs || sepCellsF fuel rest

/-- `(\s*-+\s*\|)+` then `\s*$`.  Each cell consumes at least one
character (`sepCell_shrinks`), so `length + 1` rounds can never be
exhausted. -/
def sepCells (l : Str) : Bool := sepCellsF (l.length + 1) l

/-- `isSeparatorLine`: trimmed line starts and ends with `|` and matches
`/^\s*\|(\s*-+\s*\|)+\s*$/`. -/
def isSeparatorLine (line : Str) : Bool :=
  let trimmedLine := jsTrim line
  (strL "|").isPrefixOf trimmedLine && (strL "|").isSuffixOf trimmedLine &&
    (match trimmedLine.dropWhile isJsWs with
     | '|' :: rest => sepCells rest
     | _ => false)

/-- `isTableRow`: contains `|`, is not a separator row, and is longer
than two characters (after trimming). -/
def isTableRow (line : Str) : Bool :=
  let trimmedLine := jsTrim line
  trimmedLine.contains '|' && !(isSeparatorLine trimmedLine) &&
    decide (trimmedLine.length > 2)

/-- `headerLine.split('|')`. -/
def splitOnPipe : Str → List Str
  | [] => [[]]
  | c :: rest =>
    if c = '|' then [] :: splitOnPipe rest
    else
      match splitOnPipe rest with
      | [] => [[c]]
      | h :: tl => (c :: h) :: tl

/-- `generateSeparatorLine(headerLine)`: `'|' + ' --- |'.repeat(max(1,
headerColumns - 2))` with `headerColumns = headerLine.split('|').length`. -/
def generateSeparatorLine (headerLine : Str) : Str :=
  let headerColumns := (splitOnPipe headerLine).length
  strL "|" ++ (List.replicate (max 1 (headerColumns - 2)) (strL " --- |")).flatten

/-- `addSeparatorLine(table)`: synthesize a separator after line
`startIndex` of the current line array, recording `'\n' + separator`
character by character starting at
`lineStartPos = Σ_{j ≤ startIndex} (length + 1)`. -/
def addSeparatorLine (lines : List Str) (startIndex : Nat) :
    List Str × List Ins :=
  let headerLine := lines.getD startIndex []
  let separatorLine := generateSeparatorLine headerLine
  let lineStartPos := ((lines.take (startIndex + 1)).map (fun l => l.length + 1)).sum
  let recorded := ('\n' :: separatorLine).enum.map
    (fun p => (⟨[p.2], lineStartPos + p.1⟩ : Ins))
  (insLineAt lines (startIndex + 1) separatorLine, recorded)

/-- The line loop of `fixTablesWithDiff`.  The JS loop walks index `i`
over an array into which `addSeparatorLine` splices (always at an index
`≤ i`, compensated by `i++`), so it is a structural walk over the
unvisited suffix `todo`; `done` holds the lines already visited
(including spliced separators), and a current table is `(startIndex,
hasSeparatorLine)` with `startIndex` an index into `done`. -/
def tablesLoop :
    List Str → List Str → Option (Nat × Bool) → List Ins →
    List Str × List Ins
  | done, [], currentTable, acc =>
    -- after the loop: a table still open at document end
    match currentTable with
    | some (startIndex, hasSep) =>
      if !hasSep then
        let r := addSeparatorLine done startIndex
        (r.1, acc ++ r.2)
      else (done, acc)
    | none => (done, acc)
  | done, line :: rest, currentTable, acc =>
    if isTableRow line then
      match currentTable with
      | none => tablesLoop (done ++ [line]) rest (some (done.length, false)) acc
      | some st => tablesLoop (done ++ [line]) rest (some st) acc
    else if isSeparatorLine line && currentTable.isSome then
      match currentTable with
      | some (startIndex, _) =>
        tablesLoop (done ++ [line]) rest (some (startIndex, true)) acc
      | none => tablesLoop (done ++ [line]) rest currentTable acc
    else
      match currentTable with
      | some (startIndex, hasSep) =>
        if !hasSep && decide (done.length - startIndex > 1) then
          let r := addSeparatorLine done startIndex
          tablesLoop (r.1 ++ [line]) rest none (acc ++ r.2)
        else
          tablesLoop (done ++ [line]) rest none acc
      | none => tablesLoop (done ++ [line]) rest none acc

/-- `fixTablesWithDiff(markdown)` (final revision). -/
def fixTablesWithDiff (o : MarkdownSyntaxFixOptions) (markdown : Str) :
    Str × List Ins :=
  if !o.tables.enabled then (markdown, [])
  else
    let r := tablesLoop [] (splitNL markdown) none []
    (joinNL r.1, r.2)

/-! ## Orchestrator (`fixWithDiff`, `fix`) -/

/-- `fixWithDiff(markdown)`: the six stages in priority order, each fed
the text produced by the previous one and the escape positions of the
original text, with `addedChars` concatenated in execution order. -/
def fixWithDiff (o : MarkdownSyntaxFixOptions) (markdown : Str) : FixDiff :=
  if !o.enabled then ⟨markdown, markdown, []⟩
  else
    let E := findEscapePositions markdown
    let s1 := if o.codeBlocks.enabled then fixCodeBlocksWithDiff o markdown E
              else (markdown, [])
    let s2 := if o.inlineCode.enabled then fixInlineCodeWithDiff o s1.1 E
              else (s1.1, [])
    let s3 := if o.mathFormulas.enabled then fixMathFormulasWithDiff o s2.1 E
              else (s2.1, [])
    let s4 := if o.links.enabled then fixLinksWithDiff o s3.1 E
              else (s3.1, [])
    let s5 := if o.images.enabled then fixImagesWithDiff o s4.1 E
              else (s4.1, [])
    let s6 := if o.tables.enabled then fixTablesWithDiff o s5.1
              else (s5.1, [])
    ⟨markdown, s6.1, s1.2 ++ s2.2 ++ s3.2 ++ s4.2 ++ s5.2 ++ s6.2⟩

/-- `fix(markdown)`: the repaired text only. -/
def fix (o : MarkdownSyntaxFixOptions) (markdown : Str) : Str :=
  (fixWithDiff o markdown).fixed

/-- The `FixDiff` record with a nullable `original`, for modelling a
`null`/`undefined` argument (outside the TypeScript type, but dynamically
reachable). -/
structure FixDiffN where
  original : Option Str
  fixed : Str
  addedChars : List Ins
deriving DecidableEq, Repr

/-- `fixWithDiff` under default options applied to a `null`/`undefined`
argument, following the dynamic JS semantics: `findEscapePositions`
coerces the argument to the string `"null"` (resp. `"undefined"`) inside
`exec`, finding no backslash; the first stage's `!markdown` guard then
returns `{fixed: markdown || '', addedChars: []}`, i.e. the empty string,
which the remaining stages process; the returned record echoes the
original argument.  No exception is raised on this path. -/
def fixWithDiffNullable (m : Option Str) : FixDiffN :=
  let o := DEFAULT_SYNTAX_FIX_OPTIONS
  let E := findEscapePositions (match m with | none => strL "null" | some s => s)
  let s1 : Str × List Ins :=
    match m with
    | none => ([], [])
    | some s => fixCodeBlocksWithDiff o s E
  let s2 := fixInlineCodeWithDiff o s1.1 E
  let s3 := fixMathFormulasWithDiff o s2.1 E
  let s4 := fixLinksWithDiff o s3.1 E
  let s5 := fixImagesWithDiff o s4.1 E
  let s6 := fixTablesWithDiff o s5.1
  ⟨m, s6.1, s1.2 ++ s2.2 ++ s3.2 ++ s4.2 ++ s5.2 ++ s6.2⟩

/-! ## Replay and ordering of recorded insertions -/

/-- Replay a diff: apply each `addedChars` entry in list order, inserting
its `char` string at its `position` in the text built so far. -/
def replayIns (original : Str) (l : List Ins) : Str :=
  l.foldl (fun cur i => insAt cur i.position i.char) original

/-- Whether the positions of an insertion list are non-decreasing
(left-to-right document order). -/
def posSorted : List Ins → Bool
  | [] => true
  | [_] => true
  | a :: b :: r => decide (a.position ≤ b.position) && posSorted (b :: r)

/-! ## Helper lemmas -/

/-- `dropWhile` never lengthens a list. -/
theorem len_dropWhile_le (p : Char → Bool) (l : Str) :
    (l.dropWhile p).length ≤ l.length := by
  induction l with
  | nil => simp [List.dropWhile]
  | cons c cs ih =>
    simp only [List.dropWhile]
    split
    · exact Nat.le_trans ih (Nat.le_succ _)
    · exact Nat.le_refl _

/-- A successful `sepCell` consumes at least the `|`, so the
`length + 1` fuel given by `sepCells` to `sepCellsF` cannot be
exhausted. -/
theorem sepCell_shrinks {l rest : Str} (h : sepCell l = some rest) :
    rest.length < l.length := by
  unfold sepCell at h
  simp only at h
  split at h
  · exact absurd h (by simp)
  · split at h
    case _ heq =>
      cases h
      have h1 : (l.dropWhile isJsWs).length ≤ l.length := len_dropWhile_le _ _
      have h2 : ((l.dropWhile isJsWs).dropWhile (fun c => c = '-')).length ≤
          (l.dropWhile isJsWs).length := len_dropWhile_le _ _
      have h3 : (((l.dropWhile isJsWs).dropWhile (fun c => c = '-')).dropWhile
          isJsWs).length ≤ ((l.dropWhile isJsWs).dropWhile (fun c => c = '-')).length :=
        len_dropWhile_le _ _
      have h4 : ('|' :: rest).length ≤ l.length := by
        rw [← heq]; exact le_trans h3 (le_trans h2 h1)
      simp only [List.length_cons] at h4
      omega
    · exact absurd h (by simp)

/-- A newline-free text splits into a single line. -/
theorem splitNL_no_nl {t : Str} (h : ¬ '\n' ∈ t) : splitNL t = [t] := by
  induction t with
  | nil => rfl
  | cons c cs ih =>
    have hc : ¬ c = '\n' := fun hceq => h (hceq ▸ List.mem_cons_self c cs)
    have hcs : ¬ '\n' ∈ cs := fun hm => h (List.mem_cons_of_mem c hm)
    simp only [splitNL, if_neg hc, ih hcs]

/-- Splitting at the first newline of `h ++ '\n' :: s` when `h` is
newline-free. -/
theorem splitNL_append {h : Str} (s : Str) (hh : ¬ '\n' ∈ h) :
    splitNL (h ++ '\n' :: s) = h :: splitNL s := by
  induction h with
  | nil => simp [splitNL]
  | cons c cs ih =>
    have hc : ¬ c = '\n' := fun hceq => hh (hceq ▸ List.mem_cons_self c cs)
    have hcs : ¬ '\n' ∈ cs := fun hm => hh (List.mem_cons_of_mem c hm)
    simp only [List.cons_append, splitNL, if_neg hc, List.append_eq, ih hcs]

/-- `splitNL` never returns the empty list. -/
theorem splitNL_ne_nil (t : Str) : splitNL t ≠ [] := by
  cases t with
  | nil => simp [splitNL]
  | cons c cs =>
    simp only [splitNL]
    split
    · simp
    · split
      · simp
      · simp

/-- Joining after appending a final line. -/
theorem joinNL_append_last {ls : List Str} (x : Str) (h : ls ≠ []) :
    joinNL (ls ++ [x]) = joinNL ls ++ '\n' :: x := by
  induction ls with
  | nil => exact absurd rfl h
  | cons a as ih =>
    cases as with
    | nil => rfl
    | cons b bs =>
      have h2 : joinNL ((b :: bs) ++ [x]) = joinNL (b :: bs) ++ '\n' :: x :=
        ih (by simp)
      simp only [List.cons_append, joinNL, List.append_eq] at h2 ⊢
      rw [h2]
      simp

/-- The fence scan only adds lines: its output has at least as many lines
as already emitted plus those still to visit. -/
theorem fenceLoop_len (E : List Nat) (todo : List Str) :
    ∀ inCB emptyCnt outRev pos acc,
      outRev.length + todo.length ≤
        (fenceLoop E todo inCB emptyCnt outRev pos acc).1.length := by
  induction todo with
  | nil =>
    intro inCB emptyCnt outRev pos acc
    simp [fenceLoop]
  | cons line rest ih =>
    intro inCB emptyCnt outRev pos acc
    simp only [fenceLoop]
    split
    · exact le_trans (by simp; omega) (ih _ _ _ _ _)
    · split
      · split
        · exact le_trans (by simp; omega) (ih _ _ _ _ _)
        · split
          · exact le_trans (by simp; omega) (ih _ _ _ _ _)
          · split
            · exact le_trans (by simp; omega) (ih _ _ _ _ _)
            · split
              · exact le_trans (by simp; omega) (ih _ _ _ _ _)
              · exact le_trans (by simp; omega) (ih _ _ _ _ _)
      · exact le_trans (by simp; omega) (ih _ _ _ _ _)

/-! ## Claims -/

/-- Claim C5 (confirmed).  If the code-fence scan is still inside a fence
after the last line, the fence stage appends a closing fence at the end
of the document (the repaired text ends with ```` "\n```" ````); and on
the concrete input ```` "```js\nconsole.log(1)" ```` the full pipeline
returns the input with ```` "\n```" ```` appended and exactly three
recorded characters — the three backticks — at the trailing positions
`21`, `22`, `23`. -/
theorem c5_unterminated_fence :
    (∀ (t : Str) (E : List Nat), t ≠ [] →
      (fenceLoop E (splitNL t) false 0 [] 0 []).2.1 = true →
      ∃ p, (fixCodeBlocksWithDiff DEFAULT_SYNTAX_FIX_OPTIONS t E).1 =
        p ++ strL "\n```") ∧
    fixWithDiff DEFAULT_SYNTAX_FIX_OPTIONS (strL "```js\nconsole.log(1)") =
      ⟨strL "```js\nconsole.log(1)", strL "```js\nconsole.log(1)" ++ strL "\n```",
        [⟨[btChar], 21⟩, ⟨[btChar], 22⟩, ⟨[btChar], 23⟩]⟩ := by
  constructor
  · intro t E ht hscan
    have hne : ¬ t.isEmpty := by
      cases t with
      | nil => exact absurd rfl ht
      | cons c cs => simp [List.isEmpty]
    unfold fixCodeBlocksWithDiff
    have hguard :
        (!DEFAULT_SYNTAX_FIX_OPTIONS.codeBlocks.enabled || t.isEmpty) = false := by
      simp [DEFAULT_SYNTAX_FIX_OPTIONS] at hne ⊢
      exact hne
    rw [if_neg (by rw [hguard]; simp)]
    rcases hEq : fenceLoop E (splitNL t) false 0 [] 0 [] with ⟨ls, inCB, acc⟩
    rw [hEq] at hscan
    simp only at hscan
    subst hscan
    simp only [if_pos rfl]
    have hlen : 0 + (splitNL t).length ≤ ls.length := by
      have := fenceLoop_len E (splitNL t) false 0 [] 0 []
      rw [hEq] at this
      exact this
    have hsp : (splitNL t).length ≥ 1 := by
      cases hs : splitNL t with
      | nil => exact absurd hs (splitNL_ne_nil t)
      | cons a as => simp
    have hls : ls ≠ [] := by
      cases ls with
      | nil => simp only [List.length_nil, Nat.zero_add] at hlen; omega
      | cons a as => simp
    refine ⟨joinNL ls, ?_⟩
    rw [joinNL_append_last (strL "```") hls]
    rfl
  · decide

/-- Witness for the universal part of `c5_unterminated_fence`, at the
concrete unterminated-fence input of the claim. -/
theorem c5_unterminated_fence_witness :
    strL "```js\nconsole.log(1)" ≠ [] ∧
    (fenceLoop (findEscapePositions (strL "```js\nconsole.log(1)"))
      (splitNL (strL "```js\nconsole.log(1)")) false 0 [] 0 []).2.1 = true ∧
    ∃ p, (fixCodeBlocksWithDiff DEFAULT_SYNTAX_FIX_OPTIONS
        (strL "```js\nconsole.log(1)")
        (findEscapePositions (strL "```js\nconsole.log(1)"))).1 =
      p ++ strL "\n```" :=
  ⟨by decide, by decide,
    c5_unterminated_fence.1 (strL "```js\nconsole.log(1)")
      (findEscapePositions (strL "```js\nconsole.log(1)"))
      (by decide) (by decide)⟩

/-- Claim C1 (code bug).  The spec's diff-replay contract — `fixed` equals
`original` with every `addedChars` entry applied in ascending position
order — fails on the code: for the input ```` "```" ```` the fence stage
appends the line ```` "\n```" ```` (four characters) but records only the
three backticks, at positions `4`, `5`, `6` of the *output*; replaying
those (already ascending) insertions over the original text yields
```` "``````" ````, not the returned `fixed` text ```` "```\n```" ````.
The inserted newline is never recorded, so replay cannot reproduce
`fixed`, either for the fence stage in isolation (the only stage that
fires here) or for the full pipeline. -/
theorem c1_diff_replay_fails :
    fixWithDiff DEFAULT_SYNTAX_FIX_OPTIONS (strL "```") =
      ⟨strL "```", strL "```\n```",
        [⟨[btChar], 4⟩, ⟨[btChar], 5⟩, ⟨[btChar], 6⟩]⟩ ∧
    posSorted (fixWithDiff DEFAULT_SYNTAX_FIX_OPTIONS (strL "```")).addedChars = true ∧
    replayIns (strL "```")
        (fixWithDiff DEFAULT_SYNTAX_FIX_OPTIONS (strL "```")).addedChars =
      strL "``````" ∧
    replayIns (strL "```")
        (fixWithDiff DEFAULT_SYNTAX_FIX_OPTIONS (strL "```")).addedChars ≠
      (fixWithDiff DEFAULT_SYNTAX_FIX_OPTIONS (strL "```")).fixed := by
  refine ⟨by decide, by decide, by decide, by decide⟩

/-- Claim C2 (code bug).  Repair is not idempotent: for the input
`"[a](b"` the link stage correctly appends `)` giving `"[a](b)"`, but a
second run matches the now well-formed link again (the lazy URL group of
the `unclosed` regex swallows the closing parenthesis, the lookahead
succeeds at end of input, and the validation finds no later `)`), so
`fix(fix(t))` is `"[a](b))"`, not `fix(t)`. -/
theorem c2_idempotence_fails :
    fix DEFAULT_SYNTAX_FIX_OPTIONS (strL "[a](b") = strL "[a](b)" ∧
    fix DEFAULT_SYNTAX_FIX_OPTIONS (fix DEFAULT_SYNTAX_FIX_OPTIONS (strL "[a](b")) =
      strL "[a](b))" ∧
    fix DEFAULT_SYNTAX_FIX_OPTIONS (fix DEFAULT_SYNTAX_FIX_OPTIONS (strL "[a](b")) ≠
      fix DEFAULT_SYNTAX_FIX_OPTIONS (strL "[a](b") := by
  refine ⟨by decide, by decide, by decide⟩

/-- Claim C3 (code bug).  The engine is not a no-op on well-formed input:
the completely balanced text `"[a](b)"` is mangled to `"[a](b))"` with one
recorded insertion, because the `unclosed`-link regex
``\[(.+?)(?<!\\)\]\s*\(([\s\S]*?)(?=\n|$| |\t)(?!\))`` matches the
*closed* link (the lazy URL group extends over the `)` until the
end-of-input lookahead holds) and the subsequent validation finds no
further `)` after the match. -/
theorem c3_noop_fails :
    fixWithDiff DEFAULT_SYNTAX_FIX_OPTIONS (strL "[a](b)") =
      ⟨strL "[a](b)", strL "[a](b))", [⟨strL ")", 6⟩]⟩ ∧
    (fixWithDiff DEFAULT_SYNTAX_FIX_OPTIONS (strL "[a](b)")).fixed ≠
      strL "[a](b)" ∧
    (fixWithDiff DEFAULT_SYNTAX_FIX_OPTIONS (strL "[a](b)")).addedChars ≠ [] := by
  refine ⟨by decide, by decide, by decide⟩

/-- Claim C4 (code bug).  Escape respect fails for backticks:
`findEscapePositions` records the position of the *backslash*, but
`fixInlineCodeWithDiff` asks `isEscaped` about the position of the
*backtick*, so the escaped backtick of `"\`x"` (source literal `"\\`x"`)
is treated as an opener and a closing backtick is appended.  The `"\$x"`
part of the claim does hold — the inline-math regex has its own
`(?<!\\)` lookbehind — as the second conjunct shows. -/
theorem c4_escape_respect_fails :
    fix DEFAULT_SYNTAX_FIX_OPTIONS (strL "\\`x") = strL "\\`x`" ∧
    fix DEFAULT_SYNTAX_FIX_OPTIONS (strL "\\`x") ≠ strL "\\`x" ∧
    fix DEFAULT_SYNTAX_FIX_OPTIONS (strL "\\$x") = strL "\\$x" := by
  refine ⟨by decide, by decide, by decide⟩

/-- Claim C8 counterexample.  A `null` input does not yield the empty
record `{original: "", fixed: "", addedChars: []}` claimed by the spec:
the returned record echoes `null` in its `original` field (only `fixed`
is the empty string). -/
theorem c8_counterexample :
    fixWithDiffNullable none ≠ ⟨some (strL ""), strL "", []⟩ := by
  decide

/-- Claim C8 as amended.  The empty string yields exactly
`{original: "", fixed: "", addedChars: []}`; a `null` (or `undefined`)
input is guarded by the fence stage's `!markdown` test and flows through
the remaining stages as the empty string without raising, but the
returned record is `{original: null, fixed: "", addedChars: []}` — the
`original` field echoes the argument instead of being the empty
string. -/
theorem c8_empty_null_amended :
    fixWithDiff DEFAULT_SYNTAX_FIX_OPTIONS (strL "") = ⟨strL "", strL "", []⟩ ∧
    fixWithDiffNullable none = ⟨none, strL "", []⟩ ∧
    fixWithDiffNullable (some (strL "")) = ⟨some (strL ""), strL "", []⟩ := by
  refine ⟨by decide, by decide, by decide⟩

/-- Claim C9 (code bug).  The within-stage ordering invariant fails: on
the input `"[a]"` the link stage inserts `()` after the bracket, pushing
`{'(', 3}` then `{')', 4}` and finally reversing the whole list, so it
returns `[{')', 4}, {'(', 3}]` — strictly *decreasing* positions, not the
claimed non-decreasing left-to-right order. -/
theorem c9_ordering_fails :
    fixLinksWithDiff DEFAULT_SYNTAX_FIX_OPTIONS (strL "[a]")
        (findEscapePositions (strL "[a]")) =
      (strL "[a]()", [⟨strL ")", 4⟩, ⟨strL "(", 3⟩]) ∧
    posSorted (fixLinksWithDiff DEFAULT_SYNTAX_FIX_OPTIONS (strL "[a]")
        (findEscapePositions (strL "[a]"))).2 = false := by
  refine ⟨by decide, by decide⟩

/-- Claim C6 counterexample.  A line *inside* a `$$` block span is not
exempt from inline-math repair: in `"$$\na $ b\n$$"` the middle line lies
between the two `$$` delimiters, yet its odd `$` count triggers an
appended `$`, contradicting the claim that block-span lines receive no
inline-math insertion (the stage's skip test looks only at whether the
line itself starts or ends with `$$`). -/
theorem c6_counterexample :
    fixWithDiff DEFAULT_SYNTAX_FIX_OPTIONS (strL "$$\na $ b\n$$") =
      ⟨strL "$$\na $ b\n$$", strL "$$\na $ b$\n$$", [⟨strL "$", 8⟩]⟩ ∧
    (fixWithDiff DEFAULT_SYNTAX_FIX_OPTIONS (strL "$$\na $ b\n$$")).fixed ≠
      strL "$$\na $ b\n$$" := by
  refine ⟨by decide, by decide⟩

/-- Every list is a `isPrefixOf` of itself. -/
theorem isPrefixOf_self (l : Str) : l.isPrefixOf l = true := by
  induction l with
  | nil => rfl
  | cons c cs ih => simp [List.isPrefixOf, ih]

/-- Claim C6 as amended.  The inline-math pass is line-local, not
span-aware: a line is exempt exactly when its *own* trimmed text starts
or ends with `$$` (`mathSkipLine`), not when it lies inside a `$$` block
span (see `c6_counterexample`).  For every newline-free line `t` that is
not exempt, an odd count of unescaped inline `$` (the matches of
`/(?<!\\)\$(?!\$)/` surviving the escape filter) makes the math stage
append exactly one `$` at the end of the line, recorded at position
`t.length`; an even count leaves the line unchanged with no insertions.
On the concrete input `"Energy is $E=mc^2"` the full pipeline appends one
`$` at the line end, recorded at position `17`. -/
theorem c6_inline_math_amended :
    (∀ (t : Str) (E : List Nat), ¬ '\n' ∈ t → mathSkipLine t = false →
      (((inlineDollarMatches E t 0).length % 2 = 1 →
         fixMathFormulasWithDiff DEFAULT_SYNTAX_FIX_OPTIONS t E =
           (t ++ ['$'], [⟨['$'], t.length⟩])) ∧
       ((inlineDollarMatches E t 0).length % 2 = 0 →
         fixMathFormulasWithDiff DEFAULT_SYNTAX_FIX_OPTIONS t E = (t, [])))) ∧
    fixWithDiff DEFAULT_SYNTAX_FIX_OPTIONS (strL "Energy is $E=mc^2") =
      ⟨strL "Energy is $E=mc^2", strL "Energy is $E=mc^2" ++ ['$'],
        [⟨['$'], 17⟩]⟩ := by
  constructor
  · intro t E hnl hskip
    have hsplit := splitNL_no_nl hnl
    have htrim : ¬ (jsTrim t = strL "$$") := by
      intro he
      have hp : (strL "$$").isPrefixOf (jsTrim t) = true := by
        rw [he]
        exact isPrefixOf_self _
      simp [mathSkipLine, hp] at hskip
    have hdollar : isUnescapedDollarLine E t 0 = false := by
      simp [isUnescapedDollarLine, htrim]
    have hscan : blockMathScan E [t] 0 0 false 0 = [] := by
      simp [blockMathScan, hdollar]
    constructor
    · intro hodd
      simp only [fixMathFormulasWithDiff, DEFAULT_SYNTAX_FIX_OPTIONS,
        Bool.not_true, Bool.false_eq_true, if_false, hsplit, hscan,
        List.isEmpty_nil, if_true, inlineMathFold, hskip, if_pos hodd,
        joinNL]
      simp
    · intro heven
      have hne : ¬ ((inlineDollarMatches E t 0).length % 2 = 1) := by omega
      simp only [fixMathFormulasWithDiff, DEFAULT_SYNTAX_FIX_OPTIONS,
        Bool.not_true, Bool.false_eq_true, if_false, hsplit, hscan,
        List.isEmpty_nil, if_true, inlineMathFold, hskip, if_neg hne,
        joinNL]
      simp
  · decide

/-- Witness for the universal part of `c6_inline_math_amended`, at the
single line `"a $ b"` (odd dollar count) with the empty escape set. -/
theorem c6_inline_math_amended_witness :
    ¬ '\n' ∈ strL "a $ b" ∧ mathSkipLine (strL "a $ b") = false ∧
    (inlineDollarMatches [] (strL "a $ b") 0).length % 2 = 1 ∧
    fixMathFormulasWithDiff DEFAULT_SYNTAX_FIX_OPTIONS (strL "a $ b") [] =
      (strL "a $ b" ++ ['$'], [⟨['$'], (strL "a $ b").length⟩]) :=
  ⟨by decide, by decide, by decide,
    (c6_inline_math_amended.1 (strL "a $ b") [] (by decide) (by decide)).1
      (by decide)⟩

/-- Claim C7 counterexample.  A bare header-like line that is the last
line of the document *does* receive a synthesized separator row: the
end-of-document branch of the table stage checks only
`!hasSeparatorLine`, without the `i - startIndex > 1` data-row guard of
the in-loop branch, so `"| A | B |"` alone becomes
`"| A | B |\n| --- | --- |"`. -/
theorem c7_counterexample :
    (fixWithDiff DEFAULT_SYNTAX_FIX_OPTIONS (strL "| A | B |")).fixed =
      strL "| A | B |\n| --- | --- |" ∧
    (fixWithDiff DEFAULT_SYNTAX_FIX_OPTIONS (strL "| A | B |")).addedChars ≠ [] := by
  refine ⟨by decide, by decide⟩

/-- Claim C7 as amended.  The data-row guard holds only for tables
terminated *before* the end of the document: a header-like line whose
immediately following line is neither a table row nor a separator row
receives no synthesized separator (the in-loop branch requires
`i - startIndex > 1`), whereas a bare header-like line that is the last
line of the document does receive one (see `c7_counterexample`). -/
theorem c7_bare_header_amended :
    ∀ (h s : Str), isTableRow h = true → isTableRow s = false →
    isSeparatorLine s = false → ¬ '\n' ∈ h → ¬ '\n' ∈ s →
    fixTablesWithDiff DEFAULT_SYNTAX_FIX_OPTIONS (h ++ '\n' :: s) =
      (h ++ '\n' :: s, []) := by
  intro h s hrow hsrow hssep hnh hns
  have hsplit : splitNL (h ++ '\n' :: s) = [h, s] := by
    rw [splitNL_append s hnh, splitNL_no_nl hns]
  simp only [fixTablesWithDiff, DEFAULT_SYNTAX_FIX_OPTIONS, Bool.not_true,
    Bool.false_eq_true, if_false, hsplit]
  simp only [tablesLoop, hrow, if_pos, hsrow, hssep, Bool.false_eq_true,
    if_false, Bool.false_and, Option.isSome_some, Bool.and_true]
  simp [tablesLoop, joinNL]

/-- Witness for `c7_bare_header_amended`: the bare header `"| A | B |"`
followed by the plain line `"x"` is left untouched. -/
theorem c7_bare_header_amended_witness :
    isTableRow (strL "| A | B |") = true ∧ isTableRow (strL "x") = false ∧
    isSeparatorLine (strL "x") = false ∧
    fixTablesWithDiff DEFAULT_SYNTAX_FIX_OPTIONS
        (strL "| A | B |" ++ '\n' :: strL "x") =
      (strL "| A | B |" ++ '\n' :: strL "x", []) :=
  ⟨by decide, by decide, by decide,
    c7_bare_header_amended (strL "| A | B |") (strL "x") (by decide)
      (by decide) (by decide) (by decide) (by decide)⟩

/-- The lazy URL scan never runs past the end of its suffix. -/
theorem countUntilStop_le (l : Str) : countUntilStop l ≤ l.length := by
  induction l with
  | nil => simp [countUntilStop]
  | cons c cs ih =>
    simp only [countUntilStop]
    split
    · simp
    · simp only [List.length_cons]; omega

/-- A `(` located by `parenAfterWs` lies inside the text, at or after the
scan start. -/
theorem parenAfterWs_bounds {t : Str} {p q : Nat}
    (h : parenAfterWs t p = some q) : p ≤ q ∧ q < t.length := by
  unfold parenAfterWs at h
  simp only at h
  split at h
  case _ c hget =>
    split at h
    · cases h
      refine ⟨Nat.le_add_right _ _, ?_⟩
      have := List.get?_eq_some.mp hget
      exact this.1
    · exact absurd h (by simp)
  · exact absurd h (by simp)

/-- A `]` accepted by `findRBAux` lies at or after the scan start and
strictly within the scanned suffix. -/
theorem findRBAux_bounds {t : Str} {w : Bool} :
    ∀ (sfx : Str) (prev : Char) (j j' : Nat),
      findRBAux t w prev sfx j = some j' → j ≤ j' ∧ j' < j + sfx.length := by
  intro sfx
  induction sfx with
  | nil => intro prev j j' h; exact absurd h (by simp [findRBAux])
  | cons c cs ih =>
    intro prev j j' h
    simp only [findRBAux] at h
    split at h
    · cases h
      simp only [List.length_cons]
      omega
    · split at h
      · have hih := ih c (j + 1) j' h
        simp only [List.length_cons]
        omega
      · exact absurd h (by simp)

/-- A successful bracket-regex match ends after its start and within the
text. -/
theorem tryMatchAt_bounds {t : Str} {pk : PKind} {w : Bool} {s e : Nat}
    (h : tryMatchAt t pk w s = some e) : s < e ∧ e ≤ t.length := by
  unfold tryMatchAt at h
  simp only at h
  split at h
  · set b := (match pk with | PKind.link => s | PKind.image => s + 1) with hb
    have hbs : s ≤ b := by
      rw [hb]; cases pk <;> simp
    split at h
    · exact absurd h (by simp)
    case _ j hrb =>
      have hjb := findRBAux_bounds (t.drop (b + 2)) (t.getD (b + 1) ' ') (b + 2) j hrb
      have hlen : (t.drop (b + 2)).length = t.length - (b + 2) := List.length_drop _ _
      have hjlt : j < t.length := by
        rw [hlen] at hjb
        omega
      split at h
      · -- wantParen: e = lazyUrlEnd t (q + 1)
        split at h
        case _ q hq =>
          cases h
          have hqb := parenAfterWs_bounds hq
          have hcap := countUntilStop_le (t.drop (q + 1))
          have hdl : (t.drop (q + 1)).length = t.length - (q + 1) := List.length_drop _ _
          unfold lazyUrlEnd
          constructor
          · omega
          · rw [hdl] at hcap; omega
        · exact absurd h (by simp)
      · cases h
        omega
  · exact absurd h (by simp)

/-- The first-match search returns a real match at or after its start. -/
theorem findMatchFrom_spec {t : Str} {pk : PKind} {w : Bool} :
    ∀ (sfx : Str) (s : Nat) (p : Nat × Nat),
      findMatchFrom t pk w sfx s = some p →
      tryMatchAt t pk w p.1 = some p.2 ∧ s ≤ p.1 := by
  intro sfx
  induction sfx with
  | nil => intro s p h; exact absurd h (by simp [findMatchFrom])
  | cons c cs ih =>
    intro s p h
    simp only [findMatchFrom] at h
    split at h
    case _ e he =>
      cases h
      exact ⟨he, Nat.le_refl _⟩
    · have := ih (s + 1) p h
      exact ⟨this.1, by omega⟩

/-- Every raw match collected by the regex loop ends within the text. -/
theorem scanAllAux_stop_le {t : Str} {pk : PKind} {w : Bool} :
    ∀ (fuel lastIdx : Nat) (m : Nat × Nat),
      m ∈ scanAllAux t pk w fuel lastIdx → m.2 ≤ t.length := by
  intro fuel
  induction fuel with
  | zero => intro lastIdx m h; exact absurd h (by simp [scanAllAux])
  | succ f ih =>
    intro lastIdx m h
    simp only [scanAllAux] at h
    split at h
    · exact absurd h (by simp)
    case _ s e hp =>
      rcases List.mem_cons.mp h with h1 | h2
      · subst h1
        exact (tryMatchAt_bounds (findMatchFrom_spec _ _ (s, e) hp).1).2
      · exact ih e m h2

/-- Every match returned by `findUnclosedBrackets` ends within the
text. -/
theorem findUnclosedBrackets_stop_le {t : Str} {pk : PKind} {E : List Nat}
    {m : BMatch} (h : m ∈ findUnclosedBrackets t pk E) : m.stop ≤ t.length := by
  unfold findUnclosedBrackets at h
  rcases List.mem_append.mp h with h1 | h1
  · unfold unclosedMatches at h1
    rcases List.mem_filterMap.mp h1 with ⟨p, hp, hval⟩
    have hb := scanAllAux_stop_le (t.length + 1) 0 p hp
    split at hval
    · exact absurd hval (by simp)
    · split at hval
      · exact absurd hval (by simp)
      · cases hval; exact hb
  · unfold onlyBracketMatches at h1
    rcases List.mem_filterMap.mp h1 with ⟨p, hp, hval⟩
    have hb := scanAllAux_stop_le (t.length + 1) 0 p hp
    split at hval
    · exact absurd hval (by simp)
    · split at hval
      · exact absurd hval (by simp)
      · cases hval; exact hb

/-- Membership through stable insertion. -/
theorem insDesc_mem {x y : BMatch} : ∀ {l : List BMatch},
    x ∈ insDescByStop y l → x = y ∨ x ∈ l := by
  intro l
  induction l with
  | nil => intro h; simpa [insDescByStop] using h
  | cons z zs ih =>
    intro h
    simp only [insDescByStop] at h
    split at h
    · rcases List.mem_cons.mp h with h1 | h1
      · exact Or.inr (List.mem_cons.mpr (Or.inl h1))
      · rcases ih h1 with h2 | h2
        · exact Or.inl h2
        · exact Or.inr (List.mem_cons.mpr (Or.inr h2))
    · rcases List.mem_cons.mp h with h1 | h1
      · exact Or.inl h1
      · exact Or.inr h1

/-- Membership through the stable sort. -/
theorem sortDesc_mem {x : BMatch} : ∀ (l a : List BMatch),
    x ∈ l.foldl (fun c b => insDescByStop b c) a → x ∈ a ∨ x ∈ l := by
  intro l
  induction l with
  | nil => intro a h; exact Or.inl h
  | cons z zs ih =>
    intro a h
    simp only [List.foldl] at h
    rcases ih _ h with h1 | h1
    · rcases insDesc_mem h1 with h2 | h2
      · exact Or.inr (List.mem_cons.mpr (Or.inl h2))
      · exact Or.inl h2
    · exact Or.inr (List.mem_cons.mpr (Or.inr h1))

/-- Inserting within bounds grows the text by the inserted length. -/
theorem insAt_length {l : Str} {n : Nat} (s : Str) (h : n ≤ l.length) :
    (insAt l n s).length = l.length + s.length := by
  unfold insAt
  simp [List.length_take, List.length_drop, Nat.min_eq_left h]
  omega

/-- The skip branch of the bracket-repair loop (`actualEnd >
currentText.length`) is never taken when every pending match ends within
the text the loop started from: the running `offset` equals the growth of
the text so far, so `match.end + offset` stays within bounds. -/
theorem applyBrackets_skips (fill : Bool) :
    ∀ (ms : List BMatch) (cur : Str) (offset : Nat) (acc : List Ins) (sk : Nat),
      (∀ m ∈ ms, m.stop + offset ≤ cur.length) →
      (applyBrackets fill ms cur offset acc sk).2.2 = sk := by
  intro ms
  induction ms with
  | nil => intro cur offset acc sk _; rfl
  | cons m rest ih =>
    intro cur offset acc sk hb
    have hm : m.stop + offset ≤ cur.length := hb m (List.mem_cons_self m rest)
    simp only [applyBrackets]
    rw [if_neg (by simpa using Nat.not_lt.mpr hm)]
    split
    · -- 'unclosed': insert ")"
      apply ih
      intro m' hm'
      have h1 := hb m' (List.mem_cons_of_mem m hm')
      rw [insAt_length (strL ")") (by omega)]
      simp [strL]
      omega
    · -- 'onlyBracket': insert "()" or "(#)"
      apply ih
      intro m' hm'
      have h1 := hb m' (List.mem_cons_of_mem m hm')
      rw [insAt_length _ (by omega)]
      have : 2 ≤ (strL "(" ++ (if fill then strL "#" else []) ++ strL ")").length := by
        cases fill <;> simp [strL]
      omega

/-- Claim C10 as amended.  In the link and image stages every computed
insertion offset lies within `[0, currentText.length]` of the text at the
moment of insertion, so their out-of-bounds skip branch is unreachable
(the instrumented skip counter stays `0` for every input and escape set);
the stages that append whole tokens — fences, block math, table
separators — record positions that index the *post*-insertion text and
can exceed the length of the text at the moment of insertion, as
`c10_counterexample` shows. -/
theorem c10_offsets_amended :
    ∀ (t : Str) (E : List Nat),
      (fixLinksFull DEFAULT_SYNTAX_FIX_OPTIONS t E).2.2 = 0 ∧
      (fixImagesFull DEFAULT_SYNTAX_FIX_OPTIONS t E).2.2 = 0 := by
  intro t E
  constructor
  · unfold fixLinksFull
    rw [if_neg (by simp [DEFAULT_SYNTAX_FIX_OPTIONS])]
    apply applyBrackets_skips
    intro m hm
    have h1 : m ∈ findUnclosedBrackets t PKind.link E := by
      rcases sortDesc_mem (findUnclosedBrackets t PKind.link E) [] hm with h | h
      · exact absurd h (by simp)
      · exact h
    have := findUnclosedBrackets_stop_le h1
    omega
  · unfold fixImagesFull
    rw [if_neg (by simp [DEFAULT_SYNTAX_FIX_OPTIONS])]
    apply applyBrackets_skips
    intro m hm
    have h1 : m ∈ findUnclosedBrackets t PKind.image E := by
      rcases sortDesc_mem (findUnclosedBrackets t PKind.image E) [] hm with h | h
      · exact absurd h (by simp)
      · exact h
    have := findUnclosedBrackets_stop_le h1
    omega

/-- Claim C10 counterexample.  Not every recorded insertion offset lies
within `[0, currentText.length]` of the text at the moment of insertion:
on the input ```` "```" ```` the fence stage performs its single insertion
on a text of length `3`, yet records positions `4`, `5`, `6` (offsets
into the post-insertion text). -/
theorem c10_counterexample :
    fixCodeBlocksWithDiff DEFAULT_SYNTAX_FIX_OPTIONS (strL "```")
        (findEscapePositions (strL "```")) =
      (strL "```\n```", [⟨[btChar], 4⟩, ⟨[btChar], 5⟩, ⟨[btChar], 6⟩]) ∧
    ¬ (4 ≤ (strL "```").length) := by
  refine ⟨by decide, by decide⟩

end SyntaxFixer
